import Mathlib

/-!
Verification of the per-client track listener (Go package `server`).

The definitions below are a shallow embedding of the listener code:

* pure fragments (`RemoveTrack`, `AddTrack`, the forwarding copy loop,
  the id/label normalisation of `startCopyingTrack`, the `Close` body,
  `Tracks`) become Lean functions;
* the concurrent close/emission behaviour becomes a labelled small-step
  transition system (`stepA`) over an explicit listener state, with Go
  channel semantics made explicit: a value is delivered on the unbuffered
  `tracksChannel` only while the channel is open, and a send on a closed
  channel panics;
* the per-track PLI-ticker pair becomes a second small transition system
  (`nextB`) that models `time.Ticker` faithfully: `Stop` prevents new
  ticks but does not close the tick channel, and at most one tick can be
  pending in the channel buffer.

Tracks are identified by natural numbers; RTP payload bytes by naturals.
-/

set_option autoImplicit false

namespace Server

/-! ### Track events -/

inductive TrackEventType
  | add
  | remove
deriving DecidableEq

structure TrackEvent where
  clientID : String
  track : Nat
  ty : TrackEventType
deriving DecidableEq

/-! ### Sender map: `rtpSenderByTrack`, `AddTrack`, `RemoveTrack`

The Go map `rtpSenderByTrack map[*webrtc.Track]*webrtc.RTPSender` is
modelled as an association list without duplicate keys: insertion
overwrites, deletion removes the key. -/

inductive RemoveTrackErr
  | unknownTrack
  | detachFailed
deriving DecidableEq

inductive AddTrackErr
  | attachFailed
deriving DecidableEq

def findSender : List (Nat × Nat) → Nat → Option Nat
  | [], _ => none
  | (k, v) :: rest, t => if k = t then some v else findSender rest t

def delSender : List (Nat × Nat) → Nat → List (Nat × Nat)
  | [], _ => []
  | (k, v) :: rest, t => if k = t then delSender rest t else (k, v) :: delSender rest t

/-- Embedding of `trackListener.AddTrack`: ask the session to attach the
track; on session failure return the error and leave the map unchanged;
on success record the returned sender under the track key.
`sessionResult` is the session's answer (`some sender` or failure). -/
def AddTrack (m : List (Nat × Nat)) (t : Nat) (sessionResult : Option Nat) :
    Option AddTrackErr × List (Nat × Nat) :=
  match sessionResult with
  | none => (some .attachFailed, m)
  | some snd => (none, (t, snd) :: delSender m t)

/-- Embedding of `trackListener.RemoveTrack`: look up the sender for the
track; if absent, fail (the `cannot find sender` error, `UnknownTrack`)
with the map unchanged.  Otherwise the code first `delete`s the map entry
and then returns whatever `peerConnection.RemoveTrack` returns
(`DetachFailed` exactly when the session rejects). -/
def RemoveTrack (m : List (Nat × Nat)) (t : Nat) (sessionRejects : Bool) :
    Option RemoveTrackErr × List (Nat × Nat) :=
  match findSender m t with
  | none => (some .unknownTrack, m)
  | some _ => (if sessionRejects then some .detachFailed else none, delSender m t)

/-! ### The forwarding loop of `startCopyingTrack`

Each iteration reads into the shared 1400-byte buffer `rtpBuf` and writes
`rtpBuf[:i]` to the local track.  The outcome of the remote read and of
the local write are inputs (oracles): `IterIn.readErr` is a failing read,
`IterIn.readOk pkt w` is a read returning the `pkt.length` bytes `pkt`
(placed at the start of the buffer) whose subsequent local write returns
`w`. -/

inductive WriteRes
  | ok
  | closedPipe
  | fatal
deriving DecidableEq

inductive IterIn
  | readErr
  | readOk (pkt : List Nat) (w : WriteRes)
deriving DecidableEq

inductive ExitReason
  | readError
  | writeError
deriving DecidableEq

/-- The forwarding loop.  The buffer is threaded through the iterations
exactly as `rtpBuf` is reused in the source: a read of `pkt` overwrites
the first `pkt.length` bytes and leaves the tail stale; the write call
receives the slice `buf[0 : pkt.length]`.  Returns the sequence of write
calls (payload handed to `localTrack.Write`, paired with the write
result) and the reason the loop returned, `none` meaning the loop was
still running when the supplied read outcomes were exhausted. -/
def copyLoop : List Nat → List IterIn → List (List Nat × WriteRes) × Option ExitReason
  | _, [] => ([], none)
  | _, .readErr :: _ => ([], some .readError)
  | buf, .readOk pkt w :: rest =>
    let buf2 := pkt ++ buf.drop pkt.length
    let written := buf2.take pkt.length
    match w with
    | .fatal => ([(written, .fatal)], some .writeError)
    | .ok =>
      let r := copyLoop buf2 rest
      ((written, .ok) :: r.1, r.2)
    | .closedPipe =>
      let r := copyLoop buf2 rest
      ((written, .closedPipe) :: r.1, r.2)

/-- Specification-side description of the forwarded payloads: the bytes
of every successful read, in read order, up to and including a fatally
failing write, stopping at a read error. (Stated from the spec's words
for comparison with `copyLoop`.) -/
def forwardedPayloads : List IterIn → List (List Nat)
  | [] => []
  | .readErr :: _ => []
  | .readOk pkt .fatal :: _ => [pkt]
  | .readOk pkt _ :: rest => pkt :: forwardedPayloads rest

/-- Specification-side description of why the loop stops: the first read
error stops it with `readError`; the first non-benign write error stops
it with `writeError`; otherwise it is still running. (Stated from the
spec's words for comparison with `copyLoop`.) -/
def loopExit : List IterIn → Option ExitReason
  | [] => none
  | .readErr :: _ => some .readError
  | .readOk _ .fatal :: _ => some .writeError
  | .readOk _ _ :: rest => loopExit rest

/-- An iteration outcome on which the source loop `return`s. -/
def isExitIter : IterIn → Bool
  | .readErr => true
  | .readOk _ w => w = WriteRes.fatal

/-- The freshly allocated read buffer, `make([]byte, 1400)`. -/
def rtpBuf0 : List Nat := List.replicate 1400 0

/-! ### Identity normalisation of `startCopyingTrack` -/

def base62Alphabet : List Char :=
  "0123456789abcdefghijklmnopqrstuvwxyzABCDEFGHIJKLMNOPQRSTUVWXYZ".data

def base62Char (d : Nat) : Char := base62Alphabet.getD d '?'

/-- Modelled from the spec: the repository's `NewUUIDBase62` helper is not
under `src/` (only its caller is); the spec says it synthesises a unique
base-62 UUID.  We model it as the base-62 rendering of the fresh UUID
value `u`. -/
def NewUUIDBase62 (u : Nat) : String :=
  if u = 0 then "0" else ⟨((Nat.digits 62 u).map base62Char).reverse⟩

structure LocalTrackIds where
  id : String
  label : String
deriving DecidableEq

/-- Embedding of the id/label computation of `startCopyingTrack`
(lines 160–173): empty remote id/label are replaced by fresh base-62
UUIDs (`u1`, `u2` are the two fresh UUID values consumed by the two
generator calls), then `localTrackID = "sfu_" + remoteTrackID` and
`localTrackLabel = "sfu_" + clientID + "_" + remoteTrackLabel`. -/
def startCopyingTrackIds (clientID remoteID remoteLabel : String) (u1 u2 : Nat) :
    LocalTrackIds :=
  let remoteTrackID := if remoteID = "" then NewUUIDBase62 u1 else remoteID
  let remoteTrackLabel := if remoteLabel = "" then NewUUIDBase62 u2 else remoteLabel
  { id := "sfu_" ++ remoteTrackID
    label := "sfu_" ++ clientID ++ "_" ++ remoteTrackLabel }

/-! ### The body of `Close` as a whole-call function

`Close` is guarded by `closeOnce`; the effective body closes the close
channel, then under the write lock closes the events channel and sets
`tracksChannelClosed`. -/

structure CloseState where
  closeSignaled : Bool
  eventsClosed : Bool
  closedFlag : Bool
  onceDone : Bool
deriving DecidableEq

/-- One call of `trackListener.Close`: a no-op when `closeOnce` has
already fired, otherwise the whole body runs. -/
def Close (s : CloseState) : CloseState :=
  if s.onceDone then s
  else { closeSignaled := true, eventsClosed := true, closedFlag := true, onceDone := true }

/-- `Close` called `n` times in sequence. -/
def closeN : Nat → CloseState → CloseState
  | 0, s => s
  | n + 1, s => closeN n (Close s)

/-! ### `Tracks` and the append in `handleTrack`, with their lock traces

`Tracks` returns `p.localTracks` directly with no locking; the append in
`handleTrack` runs under `localTracksMu.Lock/Unlock`.  Each operation
returns its result together with the list of lock operations it
performed, so that locking behaviour is part of the embedding. -/

inductive LockOp
  | readLock
  | readUnlock
  | writeLock
  | writeUnlock
deriving DecidableEq

structure TracksView where
  localTracks : List Nat
deriving DecidableEq

/-- Embedding of `trackListener.Tracks` (lines 155–157): `return
p.localTracks`, no lock acquired. -/
def Tracks (p : TracksView) : List Nat × List LockOp :=
  (p.localTracks, [])

/-- Embedding of the append in `handleTrack` (lines 130–132): the write
lock is taken around the append. -/
def handleTrackAppend (p : TracksView) (t : Nat) : TracksView × List LockOp :=
  ({ localTracks := p.localTracks ++ [t] }, [.writeLock, .writeUnlock])

/-! ### Transition system A: close, emission and the shared listener state

Goroutine-level model of one `trackListener`.  A goroutine is either the
tail of `handleTrack` for some new local track `t` (append to
`localTracks` under the list lock, then the unguarded send of the `Add`
event at line 135), or the exit path of a forwarding worker (the deferred
function: `mu.RLock`, check `tracksChannelClosed`, send the `Remove`
event if unset, `mu.RUnlock`); a forwarding worker still in its copy loop
is at `FPc.loop` and may leave the loop at any time (read failure or
fatal write, refined by `copyLoop`).  The single `Close` call runs its
statements one at a time.  Go semantics of the unbuffered channel: a send
can deliver (rendezvous with the router) only while the channel is open;
a send reached when the channel is closed panics, which is absorbing. -/

inductive HPc
  | append
  | send
  | done
deriving DecidableEq

inductive FPc
  | loop
  | lock
  | check
  | send
  | unlock
  | done
deriving DecidableEq

inductive GState
  | handler (pc : HPc) (t : Nat)
  | fwd (pc : FPc) (t : Nat)
deriving DecidableEq

inductive CPc
  | idle
  | signaled
  | locked
  | eventsChClosed
  | flagSet
  | returned
deriving DecidableEq

structure AState where
  cid : String
  closeSignaled : Bool
  eventsClosed : Bool
  closedFlag : Bool
  readers : Nat
  writerHeld : Bool
  cpc : CPc
  gs : List GState
  localTracks : List Nat
  senders : List (Nat × Nat)
  emitted : List TrackEvent
  panicked : Bool
deriving DecidableEq

inductive ALabel
  | closeStep
  | goStep (i : Nat)
  | addTrackStep (t : Nat) (sessionResult : Option Nat)
  | removeTrackStep (t : Nat) (sessionRejects : Bool)
deriving DecidableEq

/-- One small step of the listener.  `none` means the chosen action is
not enabled (the goroutine is blocked or finished, or the whole program
has already panicked). -/
def stepA (s : AState) (l : ALabel) : Option AState :=
  if s.panicked then none else
  match l with
  | .closeStep =>
    match s.cpc with
    | .idle => some { s with closeSignaled := true, cpc := .signaled }
    | .signaled =>
      if s.readers = 0 && !s.writerHeld then
        some { s with writerHeld := true, cpc := .locked }
      else none
    | .locked => some { s with eventsClosed := true, cpc := .eventsChClosed }
    | .eventsChClosed => some { s with closedFlag := true, cpc := .flagSet }
    | .flagSet => some { s with writerHeld := false, cpc := .returned }
    | .returned => none
  | .goStep i =>
    match s.gs[i]? with
    | some (.handler .append t) =>
      some { s with localTracks := s.localTracks ++ [t]
                    gs := s.gs.set i (.handler .send t) }
    | some (.handler .send t) =>
      if s.eventsClosed then some { s with panicked := true }
      else some { s with emitted := s.emitted ++ [⟨s.cid, t, .add⟩]
                         gs := s.gs.set i (.handler .done t) }
    | some (.fwd .loop t) => some { s with gs := s.gs.set i (.fwd .lock t) }
    | some (.fwd .lock t) =>
      if s.writerHeld then none
      else some { s with readers := s.readers + 1, gs := s.gs.set i (.fwd .check t) }
    | some (.fwd .check t) =>
      if s.closedFlag then some { s with gs := s.gs.set i (.fwd .unlock t) }
      else some { s with gs := s.gs.set i (.fwd .send t) }
    | some (.fwd .send t) =>
      if s.eventsClosed then some { s with panicked := true }
      else some { s with emitted := s.emitted ++ [⟨s.cid, t, .remove⟩]
                         gs := s.gs.set i (.fwd .unlock t) }
    | some (.fwd .unlock t) =>
      some { s with readers := s.readers - 1, gs := s.gs.set i (.fwd .done t) }
    | _ => none
  | .addTrackStep t sessionResult =>
    some { s with senders := (AddTrack s.senders t sessionResult).2 }
  | .removeTrackStep t sessionRejects =>
    some { s with senders := (RemoveTrack s.senders t sessionRejects).2 }

/-- The freshly constructed listener with pending inbound handlers for
the local tracks `hts` and running forwarding workers for the local
tracks `fts`. -/
def initA (cid : String) (hts fts : List Nat) : AState :=
  { cid := cid
    closeSignaled := false
    eventsClosed := false
    closedFlag := false
    readers := 0
    writerHeld := false
    cpc := .idle
    gs := hts.map (fun t => .handler .append t) ++ fts.map (fun t => .fwd .loop t)
    localTracks := []
    senders := []
    emitted := []
    panicked := false }

inductive ReachableA : AState → AState → Prop
  | refl (s : AState) : ReachableA s s
  | step {s0 s s2 : AState} {l : ALabel} :
      ReachableA s0 s → stepA s l = some s2 → ReachableA s0 s2

/-- Run a concrete schedule of labels. -/
def runA (s : AState) : List ALabel → Option AState
  | [] => some s
  | l :: ls =>
    match stepA s l with
    | none => none
    | some s2 => runA s2 ls

/-! ### Transition system B: one forwarding worker and its PLI ticker

Model of the two goroutines spawned per remote track, with a faithful
`time.Ticker`: the runtime may place a tick into the (one-slot) channel
buffer whenever the ticker is not stopped and the slot is empty;
`ticker.Stop()` prevents new ticks but neither closes the channel nor
discards a pending tick.  The PLI goroutine performs one immediate RTCP
write and then `for range ticker.C` — its only transition is receiving a
pending tick and writing; `BPliPc.exited` is what loop termination would
be.  The forwarding worker may leave its copy loop at any time, then (in
deferred order) attempts the `Remove` emission and finally stops the
ticker. -/

inductive BFwdPc
  | loop
  | emitRemove
  | stopTicker
  | done
deriving DecidableEq

inductive BPliPc
  | firstWrite
  | loop
  | exited
deriving DecidableEq

structure BState where
  fwdPc : BFwdPc
  pliPc : BPliPc
  tickerStopped : Bool
  tickPending : Bool
  pliWrites : Nat
  removeAttempted : Bool
deriving DecidableEq

/-- All states reachable in one step (finite branching). -/
def nextB (s : BState) : List BState :=
  (if !s.tickerStopped && !s.tickPending then [{ s with tickPending := true }] else [])
  ++ (match s.pliPc with
      | .firstWrite => [{ s with pliWrites := s.pliWrites + 1, pliPc := .loop }]
      | .loop =>
        if s.tickPending then
          [{ s with tickPending := false, pliWrites := s.pliWrites + 1 }]
        else []
      | .exited => [])
  ++ (match s.fwdPc with
      | .loop => [{ s with fwdPc := .emitRemove }]
      | .emitRemove => [{ s with removeAttempted := true, fwdPc := .stopTicker }]
      | .stopTicker => [{ s with tickerStopped := true, fwdPc := .done }]
      | .done => [])

def initB : BState :=
  { fwdPc := .loop
    pliPc := .firstWrite
    tickerStopped := false
    tickPending := false
    pliWrites := 0
    removeAttempted := false }

/-- Run a concrete schedule: each number picks a branch of `nextB`. -/
def runB (s : BState) : List Nat → Option BState
  | [] => some s
  | i :: rest =>
    match (nextB s)[i]? with
    | none => none
    | some s2 => runB s2 rest

/-! ### Invariants of transition system A -/

/-- Ordering discipline of `Close`: the close channel is signalled before
the write lock is taken, before the events channel is closed, before the
flag is set; consequently a state in which the events channel is closed
or the flag is set is a state in which the close channel was already
signalled, and a returned `Close` implies the events channel is closed. -/
def CloseInv (s : AState) : Prop :=
  (s.cpc ≠ CPc.idle → s.closeSignaled = true)
  ∧ ((s.cpc = CPc.eventsChClosed ∨ s.cpc = CPc.flagSet ∨ s.cpc = CPc.returned) →
      s.eventsClosed = true)
  ∧ (s.eventsClosed = true → s.closeSignaled = true)
  ∧ (s.closedFlag = true → s.closeSignaled = true)

/-- Every emitted `Add` event names a track already appended to
`localTracks`, and a handler about to send its `Add` has already
appended its track. -/
def TrackInv (s : AState) : Prop :=
  (∀ ev ∈ s.emitted, ev.ty = TrackEventType.add → ev.track ∈ s.localTracks)
  ∧ (∀ (i t : Nat), s.gs[i]? = some (GState.handler HPc.send t) → t ∈ s.localTracks)

/-! ## Helper lemmas -/

theorem findSender_delSender (m : List (Nat × Nat)) (t : Nat) :
    findSender (delSender m t) t = none := by
  induction m with
  | nil => rfl
  | cons kv rest ih =>
    obtain ⟨k, v⟩ := kv
    by_cases hk : k = t
    · simp [delSender, hk, ih]
    · simp [delSender, findSender, hk, ih]

theorem close_close (s : CloseState) : Close (Close s) = Close s := by
  unfold Close
  by_cases h : s.onceDone <;> simp [h]

theorem closeN_succ (n : Nat) (s : CloseState) : closeN (n + 1) s = Close s := by
  induction n generalizing s with
  | zero => rfl
  | succ n ih =>
    calc closeN (n + 2) s = closeN (n + 1) (Close s) := rfl
    _ = Close (Close s) := ih (Close s)
    _ = Close s := close_close s

theorem copyLoop_exit_characterization (ins : List IterIn) (buf : List Nat) :
    (copyLoop buf ins).2 ≠ none ↔ ∃ x ∈ ins, isExitIter x = true := by
  induction ins generalizing buf with
  | nil => simp [copyLoop]
  | cons x rest ih =>
    cases x with
    | readErr => simp [copyLoop, isExitIter]
    | readOk pkt w =>
      cases w with
      | fatal => simp [copyLoop, isExitIter]
      | ok => simpa [copyLoop, isExitIter] using ih (pkt ++ buf.drop pkt.length)
      | closedPipe => simpa [copyLoop, isExitIter] using ih (pkt ++ buf.drop pkt.length)

theorem stepA_eventsClosed_mono {s s2 : AState} {l : ALabel}
    (h : stepA s l = some s2) (hev : s.eventsClosed = true) : s2.eventsClosed = true := by
  unfold stepA at h
  split at h
  · simp at h
  split at h <;> try split at h <;> try split at h
  all_goals (try (injection h with h; subst h))
  all_goals simp_all

theorem stepA_emitted_of_eventsClosed {s s2 : AState} {l : ALabel}
    (h : stepA s l = some s2) (hev : s.eventsClosed = true) : s2.emitted = s.emitted := by
  unfold stepA at h
  split at h
  · simp at h
  split at h <;> try split at h <;> try split at h
  all_goals (try (injection h with h; subst h))
  all_goals simp_all

theorem closeInv_step {s s2 : AState} {l : ALabel}
    (h : stepA s l = some s2) (hinv : CloseInv s) : CloseInv s2 := by
  obtain ⟨h1, h2, h3, h4⟩ := hinv
  unfold stepA at h
  split at h
  · simp at h
  split at h <;> try split at h <;> try split at h
  all_goals (try (injection h with h; subst h))
  all_goals constructor
  all_goals try constructor
  all_goals try constructor
  all_goals simp_all [CloseInv]

theorem stepA_closeStep_frame {s s2 : AState}
    (h : stepA s ALabel.closeStep = some s2) :
    s2.localTracks = s.localTracks ∧ s2.emitted = s.emitted ∧ s2.gs = s.gs := by
  unfold stepA at h
  split at h
  · simp at h
  split at h <;> try split at h <;> try split at h
  all_goals (try (injection h with h; subst h))
  all_goals simp_all

theorem stepA_trackOps {s s2 : AState} {l : ALabel}
    (h : stepA s l = some s2)
    (hl : (∃ t res, l = ALabel.addTrackStep t res) ∨ (∃ t rej, l = ALabel.removeTrackStep t rej)) :
    s2.localTracks = s.localTracks ∧ s2.emitted = s.emitted ∧ s2.gs = s.gs := by
  rcases hl with ⟨t, res, rfl⟩ | ⟨t, rej, rfl⟩ <;>
    (unfold stepA at h
     split at h
     · simp at h
     · injection h with h; subst h; exact ⟨rfl, rfl, rfl⟩)

theorem stepA_localTracks_goStep {s s2 : AState} {i : Nat}
    (h : stepA s (ALabel.goStep i) = some s2) :
    s2.localTracks = s.localTracks ∨
    ∃ t, s.gs[i]? = some (GState.handler HPc.append t) ∧
      s2.localTracks = s.localTracks ++ [t] := by
  by_cases hp : s.panicked = true
  · simp [stepA, hp] at h
  rcases hg : s.gs[i]? with _ | g
  · simp [stepA, hp, hg] at h
  rcases g with ⟨hpc, t⟩ | ⟨fpc, t⟩
  · cases hpc
    · right
      refine ⟨t, rfl, ?_⟩
      simp only [stepA, hg] at h
      rw [if_neg hp] at h
      injection h with h
      subst h
      rfl
    · left
      simp only [stepA, hg] at h
      rw [if_neg hp] at h
      split at h <;> (injection h with h; subst h; rfl)
    · simp [stepA, hp, hg] at h
  · left
    cases fpc <;>
      (simp only [stepA, hg] at h
       rw [if_neg hp] at h) <;>
      (try split at h) <;>
      (try (injection h with h)) <;>
      (try subst h) <;>
      simp_all

theorem stepA_localTracks_shape {s s2 : AState} {l : ALabel}
    (h : stepA s l = some s2) :
    s2.localTracks = s.localTracks ∨
    ∃ (i t : Nat), l = ALabel.goStep i ∧ s.gs[i]? = some (GState.handler HPc.append t) ∧
      s2.localTracks = s.localTracks ++ [t] := by
  cases l with
  | closeStep => exact Or.inl (stepA_closeStep_frame h).1
  | goStep i =>
    rcases stepA_localTracks_goStep h with h2 | ⟨t, hg, hlt⟩
    · exact Or.inl h2
    · exact Or.inr ⟨i, t, rfl, hg, hlt⟩
  | addTrackStep t res => exact Or.inl (stepA_trackOps h (Or.inl ⟨t, res, rfl⟩)).1
  | removeTrackStep t rej => exact Or.inl (stepA_trackOps h (Or.inr ⟨t, rej, rfl⟩)).1

theorem stepA_localTracks_mono {s s2 : AState} {l : ALabel}
    (h : stepA s l = some s2) : ∀ x ∈ s.localTracks, x ∈ s2.localTracks := by
  intro x hx
  rcases stepA_localTracks_shape h with h2 | ⟨i, t, _, _, h2⟩ <;> rw [h2]
  · exact hx
  · exact List.mem_append_left _ hx

theorem gs_set_none_handlerSend {gs : List GState} {i : Nat} {g : GState} {P : Nat → Prop}
    (h2 : ∀ (j u : Nat), gs[j]? = some (GState.handler HPc.send u) → P u)
    (hg : ∀ u, g ≠ GState.handler HPc.send u) :
    ∀ (j u : Nat), (gs.set i g)[j]? = some (GState.handler HPc.send u) → P u := by
  intro j u hj
  rw [List.getElem?_set] at hj
  by_cases hij : i = j
  · rw [if_pos hij] at hj
    by_cases hl : i < gs.length
    · rw [if_pos hl] at hj
      injection hj with hj
      exact absurd hj (hg u)
    · rw [if_neg hl] at hj; cases hj
  · rw [if_neg hij] at hj
    exact h2 j u hj

theorem gs_set_with_handlerSend {gs : List GState} {i t : Nat} {P : Nat → Prop}
    (h2 : ∀ (j u : Nat), gs[j]? = some (GState.handler HPc.send u) → P u)
    (ht : P t) :
    ∀ (j u : Nat),
      (gs.set i (GState.handler HPc.send t))[j]? = some (GState.handler HPc.send u) → P u := by
  intro j u hj
  rw [List.getElem?_set] at hj
  by_cases hij : i = j
  · rw [if_pos hij] at hj
    by_cases hl : i < gs.length
    · rw [if_pos hl] at hj
      injection hj with hj
      injection hj with hpc hut
      exact hut ▸ ht
    · rw [if_neg hl] at hj; cases hj
  · rw [if_neg hij] at hj
    exact h2 j u hj

theorem trackInv_step {s s2 : AState} {l : ALabel}
    (h : stepA s l = some s2) (hinv : TrackInv s) : TrackInv s2 := by
  obtain ⟨h1, h2⟩ := hinv
  cases l with
  | addTrackStep t res =>
    obtain ⟨hlt, hem, hgs⟩ := stepA_trackOps h (Or.inl ⟨t, res, rfl⟩)
    constructor
    · intro ev hev hty
      rw [hlt]
      exact h1 ev (by rw [hem] at hev; exact hev) hty
    · intro j u hj
      rw [hlt]
      exact h2 j u (by rw [hgs] at hj; exact hj)
  | removeTrackStep t rej =>
    obtain ⟨hlt, hem, hgs⟩ := stepA_trackOps h (Or.inr ⟨t, rej, rfl⟩)
    constructor
    · intro ev hev hty
      rw [hlt]
      exact h1 ev (by rw [hem] at hev; exact hev) hty
    · intro j u hj
      rw [hlt]
      exact h2 j u (by rw [hgs] at hj; exact hj)
  | closeStep =>
    obtain ⟨hlt, hem, hgs⟩ := stepA_closeStep_frame h
    constructor
    · intro ev hev hty
      rw [hlt]
      exact h1 ev (by rw [hem] at hev; exact hev) hty
    · intro j u hj
      rw [hlt]
      exact h2 j u (by rw [hgs] at hj; exact hj)
  | goStep i =>
    by_cases hp : s.panicked = true
    · simp [stepA, hp] at h
    rcases hg : s.gs[i]? with _ | g
    · simp [stepA, hp, hg] at h
    rcases g with ⟨hpc, t⟩ | ⟨fpc, t⟩
    · cases hpc
      · simp only [stepA, hg] at h
        rw [if_neg hp] at h
        injection h with h
        subst h
        constructor
        · intro ev hev hty
          exact List.mem_append_left _ (h1 ev hev hty)
        · exact gs_set_with_handlerSend
            (fun j u hj => List.mem_append_left _ (h2 j u hj))
            (List.mem_append_right _ (by simp))
      · simp only [stepA, hg] at h
        rw [if_neg hp] at h
        split at h
        · injection h with h
          subst h
          exact ⟨h1, h2⟩
        · injection h with h
          subst h
          constructor
          · intro ev hev hty
            rcases List.mem_append.1 hev with hev | hev
            · exact h1 ev hev hty
            · have he : ev = ⟨s.cid, t, TrackEventType.add⟩ := by simpa using hev
              rw [he]
              exact h2 i t hg
          · exact gs_set_none_handlerSend h2 (fun u => by simp)
      · simp [stepA, hp, hg] at h
    · cases fpc with
      | loop =>
        simp only [stepA, hg] at h
        rw [if_neg hp] at h
        injection h with h
        subst h
        exact ⟨h1, gs_set_none_handlerSend h2 (fun u => by simp)⟩
      | lock =>
        simp only [stepA, hg] at h
        rw [if_neg hp] at h
        split at h
        · cases h
        · injection h with h
          subst h
          exact ⟨h1, gs_set_none_handlerSend h2 (fun u => by simp)⟩
      | check =>
        simp only [stepA, hg] at h
        rw [if_neg hp] at h
        split at h <;>
          (injection h with h
           subst h
           exact ⟨h1, gs_set_none_handlerSend h2 (fun u => by simp)⟩)
      | send =>
        simp only [stepA, hg] at h
        rw [if_neg hp] at h
        split at h
        · injection h with h
          subst h
          exact ⟨h1, h2⟩
        · injection h with h
          subst h
          constructor
          · intro ev hev hty
            rcases List.mem_append.1 hev with hev | hev
            · exact h1 ev hev hty
            · have he : ev = ⟨s.cid, t, TrackEventType.remove⟩ := by simpa using hev
              rw [he] at hty
              simp at hty
          · exact gs_set_none_handlerSend h2 (fun u => by simp)
      | unlock =>
        simp only [stepA, hg] at h
        rw [if_neg hp] at h
        injection h with h
        subst h
        exact ⟨h1, gs_set_none_handlerSend h2 (fun u => by simp)⟩
      | done =>
        simp only [stepA, hg] at h
        rw [if_neg hp] at h
        cases h

theorem reachableA_trans {s0 s1 s2 : AState}
    (h1 : ReachableA s0 s1) (h2 : ReachableA s1 s2) : ReachableA s0 s2 := by
  induction h2 with
  | refl => exact h1
  | step _ hstep ih => exact ReachableA.step ih hstep

theorem reachableA_of_runA :
    ∀ (ls : List ALabel) {s0 s : AState}, runA s0 ls = some s → ReachableA s0 s := by
  intro ls
  induction ls with
  | nil =>
    intro s0 s h
    injection h with h
    subst h
    exact ReachableA.refl s0
  | cons l rest ih =>
    intro s0 s h
    unfold runA at h
    rcases hs : stepA s0 l with _ | s1
    · rw [hs] at h; cases h
    · rw [hs] at h
      exact reachableA_trans (ReachableA.step (ReachableA.refl s0) hs) (ih h)

theorem closeInv_initA (cid : String) (hts fts : List Nat) : CloseInv (initA cid hts fts) := by
  refine ⟨fun hc => absurd rfl hc, fun hc => ?_, fun hc => ?_, fun hc => ?_⟩ <;>
    simp [initA] at hc

theorem trackInv_initA (cid : String) (hts fts : List Nat) : TrackInv (initA cid hts fts) := by
  constructor
  · intro ev hev
    simp [initA] at hev
  · intro i t hg
    have hmem := List.getElem?_mem hg
    simp [initA] at hmem

theorem closeInv_reachable {s0 s : AState}
    (h0 : CloseInv s0) (hr : ReachableA s0 s) : CloseInv s := by
  induction hr with
  | refl => exact h0
  | step _ hstep ih => exact closeInv_step hstep ih

theorem trackInv_reachable {s0 s : AState}
    (h0 : TrackInv s0) (hr : ReachableA s0 s) : TrackInv s := by
  induction hr with
  | refl => exact h0
  | step _ hstep ih => exact trackInv_step hstep ih

theorem localTracks_mono_reachable {s s2 : AState}
    (hr : ReachableA s s2) : ∀ x ∈ s.localTracks, x ∈ s2.localTracks := by
  induction hr with
  | refl => exact fun x hx => hx
  | step _ hstep ih => exact fun x hx => stepA_localTracks_mono hstep x (ih x hx)

/-! ## Claim theorems -/

/-- C1: in every execution in which `Close()` has returned, no subsequent
`TrackEvent` — neither `Add` (the unguarded send in `handleTrack`) nor
`Remove` (the forwarding worker's deferred exit path) — is ever delivered on
the channel returned by `Events()`/`TracksChannel()`: once `Close` has
returned, the events channel is closed, so any attempted send panics instead
of delivering, and no step extends the list of emitted events. -/
theorem c1_no_emission_after_close_returned (cid : String) (hts fts : List Nat)
    (s s2 : AState) (l : ALabel)
    (hr : ReachableA (initA cid hts fts) s)
    (hret : s.cpc = CPc.returned)
    (hstep : stepA s l = some s2) :
    s2.emitted = s.emitted := by
  have hinv := closeInv_reachable (closeInv_initA cid hts fts) hr
  exact stepA_emitted_of_eventsClosed hstep (hinv.2.1 (Or.inr (Or.inr hret)))

/-- Witness for C1: a concrete run in which `Close` has returned and a
forwarding worker then takes a step; the emitted-event list is unchanged. -/
theorem c1_witness :
    (AState.mk "alice" true true true 0 false CPc.returned
        [GState.fwd FPc.lock 5] [] [] [] false).emitted
      = (AState.mk "alice" true true true 0 false CPc.returned
          [GState.fwd FPc.loop 5] [] [] [] false).emitted :=
  c1_no_emission_after_close_returned "alice" [] [5]
    (AState.mk "alice" true true true 0 false CPc.returned
      [GState.fwd FPc.loop 5] [] [] [] false)
    (AState.mk "alice" true true true 0 false CPc.returned
      [GState.fwd FPc.lock 5] [] [] [] false)
    (ALabel.goStep 0)
    (reachableA_of_runA
      [ALabel.closeStep, ALabel.closeStep, ALabel.closeStep, ALabel.closeStep,
       ALabel.closeStep] (by decide))
    rfl (by decide)

/-- C2 (code bug): the spec says the `Add` emission selects over the close
signal and drops the event when the listener closes first; the code instead
performs the unguarded send `p.tracksChannel <- TrackEvent{...}` at line 135
(the select-based `sendTrackEvent` helper exists but is never called).  In
this concrete run a remote track's handler reaches its emission after
`Close()` has completed: the handler panics (send on closed channel); the
event is neither delivered (`emitted = []`) nor dropped with the emitter
returning (the handler is still stuck at its send). -/
theorem c2_add_send_after_close_panics :
    (runA (initA "alice" [7] [])
        [ALabel.goStep 0, ALabel.closeStep, ALabel.closeStep, ALabel.closeStep,
         ALabel.closeStep, ALabel.closeStep, ALabel.goStep 0]).map
      (fun s => (s.panicked, s.emitted, s.gs))
      = some (true, [], [GState.handler HPc.send 7]) := by decide

/-- C4 counterexample: the claim says the forwarding worker exits if and only
if the inbound read fails or the listener is closed.  Both directions fail on
the code: the run below exits with a write error although no read failed (and
independently of any close), and the loop processes packets with no exit
regardless of the listener's close state, which it never inspects — `copyLoop`
takes no close input at all, mirroring the source loop. -/
theorem c4_counterexample :
    (copyLoop rtpBuf0 [IterIn.readOk [1, 2, 3] WriteRes.fatal]).2
        = some ExitReason.writeError
    ∧ IterIn.readErr ∉ [IterIn.readOk [1, 2, 3] WriteRes.fatal]
    ∧ (copyLoop rtpBuf0 [IterIn.readOk [9] WriteRes.ok]).2 = none :=
  ⟨rfl, by decide, rfl⟩

/-- C4 (amended): the forwarding worker exits if and only if the inbound read
fails or the local write fails with an error other than closed-pipe (the
listener being closed is not by itself an exit trigger); on exit, the deferred
function proceeds to the `Remove` send exactly when the `tracksChannelClosed`
flag is unset (otherwise the `Remove` is dropped), and when it does send on
the still-open channel the `Remove` event is emitted. -/
theorem c4_amended_worker_exit (ins : List IterIn) (buf : List Nat) (sA : AState)
    (i t : Nat) (hp : sA.panicked = false) :
    ((copyLoop buf ins).2 ≠ none ↔ ∃ x ∈ ins, isExitIter x = true)
    ∧ (sA.gs[i]? = some (GState.fwd FPc.check t) → sA.closedFlag = true →
        stepA sA (ALabel.goStep i) =
          some { sA with gs := sA.gs.set i (GState.fwd FPc.unlock t) })
    ∧ (sA.gs[i]? = some (GState.fwd FPc.check t) → sA.closedFlag = false →
        stepA sA (ALabel.goStep i) =
          some { sA with gs := sA.gs.set i (GState.fwd FPc.send t) })
    ∧ (sA.gs[i]? = some (GState.fwd FPc.send t) → sA.eventsClosed = false →
        stepA sA (ALabel.goStep i) =
          some { sA with
                  emitted := sA.emitted ++ [⟨sA.cid, t, TrackEventType.remove⟩]
                  gs := sA.gs.set i (GState.fwd FPc.unlock t) }) := by
  refine ⟨copyLoop_exit_characterization ins buf, ?_, ?_, ?_⟩
  · intro hg hc
    simp only [stepA, hg]
    rw [if_neg (by simp [hp]), if_pos hc]
  · intro hg hc
    simp only [stepA, hg]
    rw [if_neg (by simp [hp]), if_neg (by simp [hc])]
  · intro hg hev
    simp only [stepA, hg]
    rw [if_neg (by simp [hp]), if_neg (by simp [hev])]

/-- Witness for C4 (amended) at concrete inputs: a single failing read makes
the loop exit, and a worker at the flag check with the flag unset proceeds to
the `Remove` send. -/
theorem c4_witness :
    ((copyLoop rtpBuf0 [IterIn.readErr]).2 ≠ none ↔
      ∃ x ∈ [IterIn.readErr], isExitIter x = true)
    ∧ stepA (AState.mk "w" false false false 1 false CPc.idle
          [GState.fwd FPc.check 3] [] [] [] false) (ALabel.goStep 0)
        = some (AState.mk "w" false false false 1 false CPc.idle
          [GState.fwd FPc.send 3] [] [] [] false) := by
  refine ⟨(c4_amended_worker_exit [IterIn.readErr] rtpBuf0
      (AState.mk "w" false false false 1 false CPc.idle
        [GState.fwd FPc.check 3] [] [] [] false) 0 3 rfl).1, ?_⟩
  exact (c4_amended_worker_exit [IterIn.readErr] rtpBuf0
      (AState.mk "w" false false false 1 false CPc.idle
        [GState.fwd FPc.check 3] [] [] [] false) 0 3 rfl).2.2.1 rfl rfl

/-- C5 counterexample: with a sender recorded for track 1 and the session
rejecting the removal, `RemoveTrack` returns the failure and nevertheless the
sender mapping entry has been removed — contradicting the claim that the
entry is removed exactly on success (the code deletes the map entry before
calling the session). -/
theorem c5_counterexample :
    (RemoveTrack [(1, 10)] 1 true).1 = some RemoveTrackErr.detachFailed
    ∧ (RemoveTrack [(1, 10)] 1 true).2 = []
    ∧ findSender (RemoveTrack [(1, 10)] 1 true).2 1 = none := by decide

/-- C5 (amended): `RemoveTrack(t)` returns `UnknownTrack` and leaves all
state unchanged when no sender is recorded for `t`; when a sender is
recorded it returns `DetachFailed` exactly when the session rejects removal,
and the sender mapping entry for `t` is removed whenever a sender was
recorded — regardless of whether the session accepts (the deletion precedes
the session call). -/
theorem c5_removeTrack_amended (m : List (Nat × Nat)) (t : Nat) (rej : Bool) :
    (findSender m t = none → RemoveTrack m t rej = (some RemoveTrackErr.unknownTrack, m))
    ∧ (∀ snd, findSender m t = some snd →
        ((RemoveTrack m t rej).1 = some RemoveTrackErr.detachFailed ↔ rej = true)
        ∧ ((RemoveTrack m t rej).1 = none ↔ rej = false)
        ∧ (RemoveTrack m t rej).2 = delSender m t
        ∧ findSender (RemoveTrack m t rej).2 t = none) := by
  constructor
  · intro hn
    simp [RemoveTrack, hn]
  · intro snd hs
    have h2 : (RemoveTrack m t rej).2 = delSender m t := by
      simp [RemoveTrack, hs]
    refine ⟨?_, ?_, h2, ?_⟩
    · cases rej <;> simp [RemoveTrack, hs]
    · cases rej <;> simp [RemoveTrack, hs]
    · rw [h2]
      exact findSender_delSender m t

/-- Witness for C5 (amended) at concrete inputs. -/
theorem c5_witness :
    RemoveTrack [] 1 false = (some RemoveTrackErr.unknownTrack, [])
    ∧ ((RemoveTrack [(2, 5)] 2 false).1 = none ↔ false = false)
    ∧ findSender (RemoveTrack [(2, 5)] 2 false).2 2 = none := by
  refine ⟨(c5_removeTrack_amended [] 1 false).1 (by decide), ?_, ?_⟩
  · exact ((c5_removeTrack_amended [(2, 5)] 2 false).2 5 (by decide)).2.1
  · exact ((c5_removeTrack_amended [(2, 5)] 2 false).2 5 (by decide)).2.2.2

/-- C6: in every forwarding-loop iteration whose remote read succeeds with
`n` bytes, exactly the bytes `buffer[0:n]` — the bytes just read, despite the
buffer being reused across iterations — are handed to the local-track write,
in read order; a closed-pipe write error is ignored and the loop continues,
while any other write error (or a read error) terminates the worker, as
described by `forwardedPayloads` and `loopExit`. -/
theorem c6_forwarded_bytes (buf : List Nat) (ins : List IterIn)
    (hbuf : buf.length = 1400)
    (hpkt : ∀ (p : List Nat) (w : WriteRes), IterIn.readOk p w ∈ ins → p.length ≤ 1400) :
    (copyLoop buf ins).1.map Prod.fst = forwardedPayloads ins
    ∧ (copyLoop buf ins).2 = loopExit ins := by
  induction ins generalizing buf with
  | nil => simp [copyLoop, forwardedPayloads, loopExit]
  | cons x rest ih =>
    cases x with
    | readErr => simp [copyLoop, forwardedPayloads, loopExit]
    | readOk pkt w =>
      have hp : pkt.length ≤ 1400 := hpkt pkt w (by simp)
      have htake : (pkt ++ buf.drop pkt.length).take pkt.length = pkt :=
        List.take_left' rfl
      have hlen : (pkt ++ buf.drop pkt.length).length = 1400 := by
        simp [hbuf]
        omega
      have hrest : ∀ (p : List Nat) (w2 : WriteRes),
          IterIn.readOk p w2 ∈ rest → p.length ≤ 1400 :=
        fun p w2 hm => hpkt p w2 (by simp [hm])
      cases w with
      | fatal => simp [copyLoop, forwardedPayloads, loopExit, htake]
      | ok =>
        have hih := ih (pkt ++ buf.drop pkt.length) hlen hrest
        simp [copyLoop, forwardedPayloads, loopExit, htake, hih.1, hih.2]
      | closedPipe =>
        have hih := ih (pkt ++ buf.drop pkt.length) hlen hrest
        simp [copyLoop, forwardedPayloads, loopExit, htake, hih.1, hih.2]

/-- Witness for C6 at a concrete run: two successful reads (the second with a
benign closed-pipe write) followed by a failing read. -/
theorem c6_witness :
    (copyLoop rtpBuf0 [IterIn.readOk [1, 2] WriteRes.ok,
        IterIn.readOk [3] WriteRes.closedPipe, IterIn.readErr]).1.map Prod.fst
        = [[1, 2], [3]]
    ∧ (copyLoop rtpBuf0 [IterIn.readOk [1, 2] WriteRes.ok,
        IterIn.readOk [3] WriteRes.closedPipe, IterIn.readErr]).2
        = some ExitReason.readError := by
  have h := c6_forwarded_bytes rtpBuf0
    [IterIn.readOk [1, 2] WriteRes.ok, IterIn.readOk [3] WriteRes.closedPipe,
     IterIn.readErr]
    (by rw [rtpBuf0, List.length_replicate])
    (by
      intro p w hm
      simp at hm
      rcases hm with ⟨rfl, rfl⟩ | ⟨rfl, rfl⟩ <;> decide)
  exact ⟨h.1, h.2⟩

/-- C8: `Close()` is idempotent — calling it `n + 1` times leaves the
listener state exactly as one call does — and in every reachable state of the
listener, if the events channel has been closed or the closed flag set then
the close channel was already signalled: the single effective invocation
signals the close channel before closing the events channel and before
setting the flag. -/
theorem c8_close_idempotent_and_ordered (s : CloseState) (n : Nat) (cid : String)
    (hts fts : List Nat) (sA : AState)
    (h : ReachableA (initA cid hts fts) sA) :
    closeN (n + 1) s = Close s
    ∧ ((sA.eventsClosed = true ∨ sA.closedFlag = true) → sA.closeSignaled = true) := by
  constructor
  · exact closeN_succ n s
  · have hinv := closeInv_reachable (closeInv_initA cid hts fts) h
    rintro (hc | hc)
    · exact hinv.2.2.1 hc
    · exact hinv.2.2.2 hc

/-- Witness for C8: four calls equal one call on the fresh close state, and a
concrete mid-close reachable state with the events channel closed has the
close channel signalled. -/
theorem c8_witness :
    closeN 4 ⟨false, false, false, false⟩ = Close ⟨false, false, false, false⟩
    ∧ (AState.mk "w" true true false 0 true CPc.eventsChClosed
        [] [] [] [] false).closeSignaled = true := by
  have h := c8_close_idempotent_and_ordered ⟨false, false, false, false⟩ 3 "w" [] []
    (AState.mk "w" true true false 0 true CPc.eventsChClosed [] [] [] [] false)
    (reachableA_of_runA [ALabel.closeStep, ALabel.closeStep, ALabel.closeStep]
      (by decide))
  exact ⟨h.1, h.2 (Or.inl rfl)⟩

/-- C9 counterexample: `Tracks()` performs no lock operation at all — in
particular it does not take the read lock the claim requires — and returns
the live list rather than a guarded snapshot. -/
theorem c9_counterexample :
    LockOp.readLock ∉ (Tracks ⟨[5]⟩).2 ∧ (Tracks ⟨[5]⟩).2 = [] := by decide

/-- C9 (amended): `Tracks()` returns the current local-track list directly —
the live slice, with no lock acquired — while the inbound handler's append
runs under the write lock; the elements of a previously returned view are not
altered by a subsequent append, which only extends the list. -/
theorem c9_amended_tracks (p : TracksView) (t : Nat) :
    (Tracks p).1 = p.localTracks
    ∧ (Tracks p).2 = []
    ∧ (Tracks (handleTrackAppend p t).1).1 = (Tracks p).1 ++ [t]
    ∧ (handleTrackAppend p t).2 = [LockOp.writeLock, LockOp.writeUnlock] :=
  ⟨rfl, rfl, rfl, rfl⟩

/-- C10: every `Add` event on the events channel names a local track that was
appended to `localTracks` before the emission, and the list only grows, so a
consumer that receives the `Add` and later reads the track list still
observes the track; `AddTrack`/`RemoveTrack` steps never modify
`localTracks`, and the only step that changes `localTracks` at all is a
handler's append of its own track. -/
theorem c10_add_event_implies_track_listed (cid : String) (hts fts : List Nat)
    (s : AState) (hr : ReachableA (initA cid hts fts) s) :
    (∀ ev ∈ s.emitted, ev.ty = TrackEventType.add → ev.track ∈ s.localTracks)
    ∧ (∀ s2, ReachableA s s2 → ∀ ev ∈ s.emitted, ev.ty = TrackEventType.add →
        ev.track ∈ s2.localTracks)
    ∧ (∀ (t : Nat) (res : Option Nat) (s2 : AState),
        stepA s (ALabel.addTrackStep t res) = some s2 → s2.localTracks = s.localTracks)
    ∧ (∀ (t : Nat) (rej : Bool) (s2 : AState),
        stepA s (ALabel.removeTrackStep t rej) = some s2 → s2.localTracks = s.localTracks)
    ∧ (∀ (l : ALabel) (s2 : AState), stepA s l = some s2 →
        s2.localTracks = s.localTracks ∨
        ∃ (i t : Nat), l = ALabel.goStep i ∧
          s.gs[i]? = some (GState.handler HPc.append t) ∧
          s2.localTracks = s.localTracks ++ [t]) := by
  have hinv := trackInv_reachable (trackInv_initA cid hts fts) hr
  refine ⟨hinv.1, ?_, ?_, ?_, fun l s2 h => stepA_localTracks_shape h⟩
  · intro s2 hr2 ev hev hty
    exact localTracks_mono_reachable hr2 ev.track (hinv.1 ev hev hty)
  · intro t res s2 h
    exact (stepA_trackOps h (Or.inl ⟨t, res, rfl⟩)).1
  · intro t rej s2 h
    exact (stepA_trackOps h (Or.inr ⟨t, rej, rfl⟩)).1

/-- Witness for C10: in a concrete run that appends track 7 and then emits
its `Add` event, the emitted event's track is in the local-track list. -/
theorem c10_witness :
    (TrackEvent.mk "bob" 7 TrackEventType.add).track ∈
      (AState.mk "bob" false false false 0 false CPc.idle
        [GState.handler HPc.done 7] [7] []
        [TrackEvent.mk "bob" 7 TrackEventType.add] false).localTracks :=
  (c10_add_event_implies_track_listed "bob" [7] []
      (AState.mk "bob" false false false 0 false CPc.idle
        [GState.handler HPc.done 7] [7] []
        [TrackEvent.mk "bob" 7 TrackEventType.add] false)
      (reachableA_of_runA [ALabel.goStep 0, ALabel.goStep 0] (by decide))).1
    (TrackEvent.mk "bob" 7 TrackEventType.add) (by decide) rfl

/-- C3 (code bug): the claim says the PLI timer worker terminates whenever
the forwarding worker terminates.  In the code the PLI goroutine runs
`for range ticker.C`, and `time.Ticker.Stop` neither closes the channel nor
discards an already-pending tick.  In the first run below the forwarding
worker has fully exited and stopped the ticker, yet the resulting system
state has no successor at all (`nextB` is empty) while the PLI worker is
still inside its loop — it never reaches `BPliPc.exited` (no `nextB` branch
ever produces that program counter); in the second run a tick that was
already pending when the ticker was stopped still triggers one more RTCP PLI
write after the stop. -/
theorem c3_pli_worker_never_exits :
    runB initB [1, 1, 1, 1]
        = some (BState.mk BFwdPc.done BPliPc.loop true false 1 true)
    ∧ nextB (BState.mk BFwdPc.done BPliPc.loop true false 1 true) = []
    ∧ (BState.mk BFwdPc.done BPliPc.loop true false 1 true).pliPc ≠ BPliPc.exited
    ∧ runB initB [0, 0, 1, 1, 1]
        = some (BState.mk BFwdPc.done BPliPc.loop true true 1 true)
    ∧ runB (BState.mk BFwdPc.done BPliPc.loop true true 1 true) [0]
        = some (BState.mk BFwdPc.done BPliPc.loop true false 2 true) := by
  decide

theorem base62Char_inj_lt :
    ∀ (a : Nat), a < 62 → ∀ (b : Nat), b < 62 → base62Char a = base62Char b → a = b := by
  decide

theorem base62Char_mem : ∀ (d : Nat), d < 62 → base62Char d ∈ base62Alphabet := by
  decide

theorem map_base62Char_inj :
    ∀ (l1 l2 : List Nat), (∀ d ∈ l1, d < 62) → (∀ d ∈ l2, d < 62) →
      l1.map base62Char = l2.map base62Char → l1 = l2 := by
  intro l1
  induction l1 with
  | nil =>
    intro l2 _ _ h
    cases l2 with
    | nil => rfl
    | cons b l2 => simp at h
  | cons a l1 ih =>
    intro l2 h1 h2 h
    cases l2 with
    | nil => simp at h
    | cons b l2 =>
      simp only [List.map_cons, List.cons.injEq] at h
      have ha := h1 a (by simp)
      have hb := h2 b (by simp)
      have hab : a = b := base62Char_inj_lt a ha b hb h.1
      subst hab
      rw [ih l2 (fun d hd => h1 d (by simp [hd])) (fun d hd => h2 d (by simp [hd])) h.2]

theorem newUUIDBase62_ne_empty (u : Nat) : NewUUIDBase62 u ≠ "" := by
  unfold NewUUIDBase62
  by_cases h : u = 0
  · rw [if_pos h]
    decide
  · rw [if_neg h]
    intro hcon
    have hd : ((Nat.digits 62 u).map base62Char).reverse = [] := by
      have h2 := congrArg String.data hcon
      simpa using h2
    rw [List.reverse_eq_nil_iff] at hd
    rw [List.map_eq_nil_iff] at hd
    exact (Nat.digits_ne_nil_iff_ne_zero.2 h) hd

theorem newUUIDBase62_chars (u : Nat) :
    ∀ c ∈ (NewUUIDBase62 u).data, c ∈ base62Alphabet := by
  unfold NewUUIDBase62
  by_cases h : u = 0
  · rw [if_pos h]
    decide
  · rw [if_neg h]
    intro c hc
    rw [List.mem_reverse] at hc
    rcases List.mem_map.1 hc with ⟨d, hd, rfl⟩
    exact base62Char_mem d (Nat.digits_lt_base (by norm_num) hd)

theorem newUUIDBase62_singleton_zero {v : Nat} (hv : v ≠ 0)
    (h : ((Nat.digits 62 v).map base62Char).reverse = "0".data) : False := by
  have h2 : (Nat.digits 62 v).map base62Char = ['0'] := by
    have h3 := congrArg List.reverse h
    simpa using h3
  rcases hl : Nat.digits 62 v with _ | ⟨d, l2⟩
  · exact (Nat.digits_ne_nil_iff_ne_zero.2 hv) hl
  · rw [hl] at h2
    simp only [List.map_cons, List.cons.injEq] at h2
    have hd62 : d < 62 := Nat.digits_lt_base (by norm_num) (by rw [hl]; simp)
    have hd0 : d = 0 := by
      refine base62Char_inj_lt d hd62 0 (by norm_num) ?_
      rw [h2.1]
      rfl
    have hl2 : l2.map base62Char = [] := h2.2
    rw [List.map_eq_nil_iff] at hl2
    have hdig : Nat.digits 62 v = [0] := by rw [hl, hd0, hl2]
    have hv0 : v = 0 := by
      have h4 := Nat.ofDigits_digits 62 v
      rw [hdig] at h4
      simpa [Nat.ofDigits] using h4.symm
    exact hv hv0

theorem newUUIDBase62_inj (u v : Nat) (h : NewUUIDBase62 u = NewUUIDBase62 v) : u = v := by
  unfold NewUUIDBase62 at h
  by_cases hu : u = 0 <;> by_cases hv : v = 0
  · rw [hu, hv]
  · rw [if_pos hu, if_neg hv] at h
    exfalso
    exact newUUIDBase62_singleton_zero hv
      (by have h2 := congrArg String.data h; exact h2.symm)
  · rw [if_neg hu, if_pos hv] at h
    exfalso
    exact newUUIDBase62_singleton_zero hu
      (by have h2 := congrArg String.data h; exact h2)
  · rw [if_neg hu, if_neg hv] at h
    have hd := congrArg String.data h
    simp only [] at hd
    have hd2 := List.reverse_injective hd
    have hdig := map_base62Char_inj _ _
      (fun d hdm => Nat.digits_lt_base (by norm_num) hdm)
      (fun d hdm => Nat.digits_lt_base (by norm_num) hdm) hd2
    have h3 := congrArg (Nat.ofDigits 62) hdig
    rwa [Nat.ofDigits_digits, Nat.ofDigits_digits] at h3

/-- C7: for every inbound remote track, the local track id is
`"sfu_" + remoteID` and the label is `"sfu_" + clientID + "_" + remoteLabel`,
where the remote id (resp. label) is replaced by a freshly generated base-62
UUID exactly when the remote value is empty; the generated identifier is
never empty, uses only base-62 characters, and distinct fresh UUID values
yield distinct identifiers. -/
theorem c7_identity_normalisation (clientID remoteID remoteLabel : String)
    (u1 u2 u v : Nat) :
    (startCopyingTrackIds clientID remoteID remoteLabel u1 u2).id
        = "sfu_" ++ (if remoteID = "" then NewUUIDBase62 u1 else remoteID)
    ∧ (startCopyingTrackIds clientID remoteID remoteLabel u1 u2).label
        = "sfu_" ++ clientID ++ "_" ++
            (if remoteLabel = "" then NewUUIDBase62 u2 else remoteLabel)
    ∧ NewUUIDBase62 u ≠ ""
    ∧ (∀ c ∈ (NewUUIDBase62 u).data, c ∈ base62Alphabet)
    ∧ (NewUUIDBase62 u = NewUUIDBase62 v → u = v) :=
  ⟨rfl, rfl, newUUIDBase62_ne_empty u, newUUIDBase62_chars u, newUUIDBase62_inj u v⟩

/-- Witness for C7 at concrete inputs: an empty remote id is replaced by a
fresh UUID, a non-empty label is kept, the generated UUID for value 7 is
non-empty, and injectivity applied at equal inputs. -/
theorem c7_witness :
    (startCopyingTrackIds "pub1" "" "stream-A" 5 6).id = "sfu_" ++ NewUUIDBase62 5
    ∧ (startCopyingTrackIds "pub1" "" "stream-A" 5 6).label = "sfu_pub1_stream-A"
    ∧ NewUUIDBase62 7 ≠ ""
    ∧ (7 : Nat) = 7 := by
  have h := c7_identity_normalisation "pub1" "" "stream-A" 5 6 7 7
  refine ⟨h.1.trans (by rw [if_pos rfl]), h.2.1.trans (by decide), h.2.2.1,
    h.2.2.2.2 rfl⟩

end Server
